import Mathlib

/-!
Verification of the two developer-tooling utilities in this repository:

* `tools/tests/utils.py` — colorized console helpers, platform-name
  normalization, scheduled-query extraction from a JSON config, and
  "select all" query synthesis from a directory of table specifications.
* `tools/formatting/git-clang-format.py` — incremental clang-format
  applicator: argument interpretation, diff parsing, extension filtering,
  formatter command construction, and the temporary-index-file scope.

Each Python function is shallowly embedded as an executable Lean
definition; effects (subprocess results, the environment, the walked
file system, parsed JSON) are passed explicitly.  Theorems below settle
the specification claims against these embeddings.
-/

/-! ## A model of parsed JSON documents (`json.loads` results)

Python dict keys from JSON are strings; objects are modelled as
association lists in document order (with a duplicated key, `json.loads`
keeps the last occurrence, which is what `jsonLookup` returns).
Numbers are modelled as integers; the claims never involve fractional
values. -/

inductive Json where
  | null
  | bool (b : Bool)
  | num (n : Int)
  | str (s : String)
  | arr (xs : List Json)
  | obj (kvs : List (String × Json))
deriving Repr

mutual

def jsonBEq : Json → Json → Bool
  | .null, .null => true
  | .bool a, .bool b => a == b
  | .num a, .num b => a == b
  | .str a, .str b => a == b
  | .arr xs, .arr ys => jsonBEqList xs ys
  | .obj a, .obj b => jsonBEqObj a b
  | _, _ => false

def jsonBEqList : List Json → List Json → Bool
  | [], [] => true
  | x :: xs, y :: ys => jsonBEq x y && jsonBEqList xs ys
  | _, _ => false

def jsonBEqObj : List (String × Json) → List (String × Json) → Bool
  | [], [] => true
  | (k1, v1) :: xs, (k2, v2) :: ys => k1 == k2 && jsonBEq v1 v2 && jsonBEqObj xs ys
  | _, _ => false

end

mutual

theorem jsonBEq_eq : ∀ a b : Json, jsonBEq a b = true ↔ a = b
  | .null, b => by cases b <;> simp [jsonBEq]
  | .bool x, b => by cases b <;> simp [jsonBEq]
  | .num x, b => by cases b <;> simp [jsonBEq]
  | .str x, b => by cases b <;> simp [jsonBEq]
  | .arr xs, b => by
      cases b <;> simp [jsonBEq]
      exact jsonBEqList_eq xs _
  | .obj kvs, b => by
      cases b <;> simp [jsonBEq]
      exact jsonBEqObj_eq kvs _

theorem jsonBEqList_eq : ∀ xs ys : List Json, jsonBEqList xs ys = true ↔ xs = ys
  | [], ys => by cases ys <;> simp [jsonBEqList]
  | x :: xs, ys => by
      cases ys with
      | nil => simp [jsonBEqList]
      | cons y ys =>
          simp [jsonBEqList, jsonBEq_eq x y, jsonBEqList_eq xs ys]

theorem jsonBEqObj_eq : ∀ xs ys : List (String × Json), jsonBEqObj xs ys = true ↔ xs = ys
  | [], ys => by cases ys <;> simp [jsonBEqObj]
  | (k1, v1) :: xs, ys => by
      cases ys with
      | nil => simp [jsonBEqObj]
      | cons y ys =>
          cases y with
          | mk k2 v2 =>
              simp [jsonBEqObj, jsonBEq_eq v1 v2, jsonBEqObj_eq xs ys]

end

instance : DecidableEq Json := fun a b => decidable_of_iff _ (jsonBEq_eq a b)

/-! ## Python string primitives used by both files

Python 2 `str` operations on the ASCII strings these tools handle. -/

/-- ASCII lower-casing of one character (`str.lower`, per character). -/
def charLower (c : Char) : Char :=
  if 'A' ≤ c ∧ c ≤ 'Z' then Char.ofNat (c.toNat + 32) else c

/-- Python `s.lower()` (ASCII). -/
def pyLower (s : String) : String :=
  String.mk (s.toList.map charLower)

/-- Python `s.strip()`: remove leading and trailing ASCII whitespace. -/
def pyStrip (s : String) : String :=
  let ws : Char → Bool := fun c =>
    c = ' ' ∨ c = '\t' ∨ c = '\n' ∨ c = '\r' ∨ c = '\x0b' ∨ c = '\x0c'
  String.mk (((s.toList.dropWhile ws).reverse.dropWhile ws).reverse)

/-- Split a character list at every occurrence of `sep` (Python
`s.split(sep)` with a non-empty separator: no limit).  `fuel` bounds
the recursion structurally so the kernel can evaluate the function; it
is always called with the input's length, which suffices because every
step consumes at least one character. -/
def pySplitAux (sep : List Char) : Nat → List Char → List (List Char)
  | _, [] => [[]]
  | 0, l => [l]
  | fuel + 1, c :: cs =>
    if sep ≠ [] ∧ sep.isPrefixOf (c :: cs) then
      [] :: pySplitAux sep fuel ((c :: cs).drop sep.length)
    else
      match pySplitAux sep fuel cs with
      | [] => [[c]]
      | p :: ps => (c :: p) :: ps

/-- Python `s.split(sep)` for a non-empty separator. -/
def pySplit (s : String) (sep : String) : List String :=
  (pySplitAux sep.toList s.toList.length s.toList).map String.mk

/-- Text before the first occurrence of `sep` (Python
`s.split(sep, 1)[0]`; the whole string when `sep` does not occur). -/
def pySplitFirstBefore (s : String) (sep : String) : String :=
  match pySplit s sep with
  | [] => s
  | p :: _ => p

/-- Text after the first occurrence of `sep` (Python
`s.split(sep, 1)[1]`), or `none` when `sep` does not occur. -/
def pySplitFirstAfter (s : String) (sep : String) : Option String :=
  match pySplitAux sep.toList s.toList.length s.toList with
  | [] => none
  | [_] => none
  | _ :: p :: ps => some (String.mk (List.intercalate sep.toList (p :: ps)))

/-- Python `needle in hay` for strings: substring test. -/
def pySubstring (needle hay : String) : Bool :=
  go needle.toList hay.toList
where
  go (n : List Char) : List Char → Bool
    | [] => n.isEmpty
    | c :: cs => n.isPrefixOf (c :: cs) || go n cs

/-- Numeric value of a non-empty ASCII digit sequence (Python `int`). -/
def natOfDigits (ds : List Char) : Nat :=
  ds.foldl (fun n c => 10 * n + (c.toNat - '0'.toNat)) 0

/-! ## Python dict operations on association lists

Every dict these tools build is modelled as an association list in
insertion order; assignment replaces an existing binding in place, else
appends. -/

/-- Python dict lookup `m[k]` (as an `Option`). -/
def dictGet {κ α : Type} [DecidableEq κ] (m : List (κ × α)) (k : κ) : Option α :=
  (m.find? (fun p => p.1 == k)).map (fun p => p.2)

/-- Python dict assignment `m[k] = v`. -/
def dictSet {κ α : Type} [DecidableEq κ] (m : List (κ × α)) (k : κ) (v : α) :
    List (κ × α) :=
  if m.any (fun p => p.1 == k) then m.map (fun p => if p.1 = k then (k, v) else p)
  else m ++ [(k, v)]

namespace Utils

/-! ## `tools/tests/utils.py` -/

/-- Source `red` (utils.py line 19): `"\033[41m\033[1;30m {0!s} \033[0m".format(str(msg))`. -/
def red (msg : String) : String :=
  "\x1b[41m\x1b[1;30m " ++ msg ++ " \x1b[0m"

/-- Source `lightred` (utils.py line 23): `"\033[1;31m{0!s}\033[0m".format(str(msg))`. -/
def lightred (msg : String) : String :=
  "\x1b[1;31m" ++ msg ++ "\x1b[0m"

/-- Source `yellow` (utils.py line 27): `"\033[43m\033[1;30m {0!s} \033[0m".format(str(msg))`. -/
def yellow (msg : String) : String :=
  "\x1b[43m\x1b[1;30m " ++ msg ++ " \x1b[0m"

/-- Source `green` (utils.py line 31): `"\033[42m\033[1;30m {0!s} \033[0m".format(str(msg))`. -/
def green (msg : String) : String :=
  "\x1b[42m\x1b[1;30m " ++ msg ++ " \x1b[0m"

/-- Source `blue` (utils.py line 35): `"\033[46m\033[1;30m {0!s} \033[0m".format(str(msg))`. -/
def blue (msg : String) : String :=
  "\x1b[46m\x1b[1;30m " ++ msg ++ " \x1b[0m"

/-- Source `platform()` (utils.py lines 51-57).  `sys.platform` is passed
explicitly; `s.find(t) == 0` is a starts-with test. -/
def platform (sys_platform : String) : String :=
  let p := sys_platform
  let p := if ("linux".toList.isPrefixOf p.toList) then "linux" else p
  let p := if ("freebsd".toList.isPrefixOf p.toList) then "freebsd" else p
  p

/-! ### `queries_from_config` (utils.py lines 60-78)

The file-open/JSON-parse step is modelled by an `Option Json` argument:
`none` means the `try` block raised (unreadable file or invalid JSON).
Exceptions raised after the `try` block (by subscripting, iteration or
`.iteritems()` on ill-typed data) are uncaught in the source and are
modelled by `PyErr`. -/

inductive PyErr where
  | typeError
  | keyError
  | attributeError
deriving DecidableEq, Repr

/-- Lookup in a parsed JSON object's fields (last occurrence wins, as
`json.loads` keeps the last duplicate key). -/
def jsonLookup (kvs : List (String × Json)) (k : String) : Option Json :=
  (kvs.reverse.find? (fun p => p.1 == k)).map (fun p => p.2)

/-- Python `key in config` for a parsed JSON value: key membership for a
dict, element membership for a list, substring test for a string, and a
`TypeError` for non-iterable values (`None`, numbers, booleans). -/
def pyIn (config : Json) (key : String) : Except PyErr Bool :=
  match config with
  | .obj kvs => .ok (kvs.any (fun p => p.1 == key))
  | .arr xs => .ok (xs.any (fun x => x == Json.str key))
  | .str s => .ok (pySubstring key s)
  | _ => .error .typeError

/-- Python `config[key]` for a string key: dict lookup (`KeyError` when
absent); every other value raises `TypeError`. -/
def getItem (config : Json) (key : String) : Except PyErr Json :=
  match config with
  | .obj kvs =>
    match jsonLookup kvs key with
    | some v => .ok v
    | none => .error .keyError
  | _ => .error .typeError

/-- Python `for x in v`: elements of a list, keys of a dict, characters
of a string; `TypeError` otherwise. -/
def iterElems : Json → Except PyErr (List Json)
  | .arr xs => .ok xs
  | .obj kvs => .ok (kvs.map (fun p => Json.str p.1))
  | .str s => .ok (s.toList.map (fun c => Json.str (String.mk [c])))
  | _ => .error .typeError

/-- Python `v.iteritems()`: only dicts have the method
(`AttributeError` otherwise). -/
def iterItems : Json → Except PyErr (List (String × Json))
  | .obj kvs => .ok kvs
  | _ => .error .attributeError

/-- Python `==` between values used as dict keys.  Python 2 unifies
booleans with their integers (`True == 1`, `False == 0`); numbers never
equal strings or `None`; lists and dicts reaching this comparison would
already have failed the hash check. -/
def pyKeyEq : Json → Json → Bool
  | .null, .null => true
  | .bool a, .bool b => a == b
  | .num a, .num b => a == b
  | .bool a, .num b => (if a then (1 : Int) else 0) == b
  | .num a, .bool b => a == (if b then (1 : Int) else 0)
  | .str a, .str b => a == b
  | _, _ => false

/-- Whether a JSON value is hashable as a Python dict key: lists and
dicts are not. -/
def pyHashable : Json → Bool
  | .arr _ => false
  | .obj _ => false
  | _ => true

/-- Python dict assignment `queries[k] = v` on an association list:
raises `TypeError: unhashable type` for a list- or dict-valued key;
otherwise replaces the value of an existing binding whose key is
Python-equal to `k` (keeping the original key object, as Python dicts
do), else appends. -/
def pyUpdate (qs : List (Json × Json)) (k v : Json) :
    Except PyErr (List (Json × Json)) :=
  if pyHashable k then
    .ok (if qs.any (fun p => pyKeyEq p.1 k) then
        qs.map (fun p => if pyKeyEq p.1 k then (p.1, v) else p)
      else qs ++ [(k, v)])
  else .error .typeError

/-- Loop body of utils.py lines 70-71:
`queries[query["name"]] = query["query"]`. -/
def addScheduledQuery (queries : List (Json × Json)) (query : Json) :
    Except PyErr (List (Json × Json)) :=
  match getItem query "name" with
  | .error e => .error e
  | .ok n =>
    match getItem query "query" with
    | .error e => .error e
    | .ok q => pyUpdate queries n q

/-- utils.py lines 69-71: the `scheduledQueries` branch. -/
def runScheduled (config : Json) (queries : List (Json × Json)) :
    Except PyErr (List (Json × Json)) :=
  match pyIn config "scheduledQueries" with
  | .error e => .error e
  | .ok false => .ok queries
  | .ok true =>
    match getItem config "scheduledQueries" with
    | .error e => .error e
    | .ok sq =>
      match iterElems sq with
      | .error e => .error e
      | .ok elems => elems.foldlM addScheduledQuery queries

/-- Loop body of utils.py lines 73-74:
`queries[name] = details["query"]`. -/
def addSchedItem (queries : List (Json × Json)) (nd : String × Json) :
    Except PyErr (List (Json × Json)) :=
  match getItem nd.2 "query" with
  | .error e => .error e
  | .ok q => pyUpdate queries (.str nd.1) q

/-- utils.py lines 72-74: the `schedule` branch
(`for name, details in config["schedule"].iteritems(): queries[name] = details["query"]`). -/
def runSchedule (config : Json) (queries : List (Json × Json)) :
    Except PyErr (List (Json × Json)) :=
  match pyIn config "schedule" with
  | .error e => .error e
  | .ok false => .ok queries
  | .ok true =>
    match getItem config "schedule" with
    | .error e => .error e
    | .ok sched =>
      match iterItems sched with
      | .error e => .error e
      | .ok items => items.foldlM addSchedItem queries

/-- Observable outcome of `queries_from_config`: `exit(n)`, a normal
return, or an uncaught Python exception. -/
inductive ConfigOutcome where
  | exited (code : Nat)
  | returned (queries : List (Json × Json))
  | raised (e : PyErr)
deriving DecidableEq, Repr

/-- Source `queries_from_config` (utils.py lines 60-78). -/
def queries_from_config (parsed : Option Json) : ConfigOutcome :=
  match parsed with
  | none => .exited 1
  | some config =>
    match runScheduled config [] with
    | .error e => .raised e
    | .ok qs1 =>
      match runSchedule config qs1 with
      | .error e => .raised e
      | .ok queries =>
        if queries.length = 0 then .exited 0 else .returned queries

/-! ### `queries_from_tables` (utils.py lines 81-103) -/

/-- Python `os.path.basename` for POSIX paths. -/
def basename (p : String) : String :=
  match (pySplit p "/").reverse with
  | [] => p
  | last :: _ => last

/-- A Python value as it appears in the membership test on utils.py
line 93: the list written there is `["specs", platform]`, where
`platform` (no parentheses) denotes the *function object*, not the
string `platform()` returns.  A string never compares equal to a
function object under Python `==`, which the constructor distinction
captures. -/
inductive PyValue where
  | str (s : String)
  | platformFunction
deriving DecidableEq, Repr

/-- Python dict assignment on a string-keyed association list. -/
def strUpdate (m : List (String × String)) (k v : String) : List (String × String) :=
  dictSet m k v

/-- Source `queries_from_tables` (utils.py lines 81-103).  `os.walk` is passed
explicitly as the list of `(base, files)` pairs it would yield, and
`sys.platform` explicitly as `sys_platform`.  The line 85 binding
`spec_platform = platform()` is re-assigned from the directory name for
every file before it is read, so it does not appear in the result. -/
def queries_from_tables (sys_platform : String)
    (walk : List (String × List String)) (restrict : String) :
    List (String × String) :=
  let _ := platform sys_platform
  let restrict_tables := (pySplit restrict ",").map pyStrip
  let tables := walk.foldl (fun acc bf =>
    bf.2.foldl (fun acc spec =>
      if spec.toList.head? = some '.' ∨ spec = "blacklist" then acc
      else
        let spec_platform := basename bf.1
        let table_name := pySplitFirstBefore spec ".table"
        if PyValue.str spec_platform ∈ [PyValue.str "specs", PyValue.platformFunction] then
          acc ++ [spec_platform ++ "." ++ table_name]
        else acc) acc) []
  let tables := if restrict.length > 0 then
      tables.filter (fun t => ((pySplit t ".").getD 1 "") ∈ restrict_tables)
    else tables
  tables.foldl (fun queries table =>
    strUpdate queries table
      ("SELECT * FROM " ++ ((pySplitFirstAfter table ".").getD "") ++ ";")) []

/-! ### Reference model of the merged query map

These definitions restate the claim's "map merged from the
`scheduledQueries` list and the `schedule` mapping" directly, for
comparison with `queries_from_config`. -/

/-- Key membership in a parsed JSON object. -/
def hasKey (kvs : List (String × Json)) (k : String) : Bool :=
  kvs.any (fun p => p.1 == k)

/-- Object field lookup defaulting to `null` (total helper used only
where well-formedness guarantees the key exists). -/
def jsonGetD (x : Json) (k : String) : Json :=
  match x with
  | .obj kvs => (jsonLookup kvs k).getD .null
  | _ => .null

/-- A `scheduledQueries` entry of the recognized schema
(`{"name": str, "query": str}`): an object whose `name` field holds a
string — a non-string name is outside the schema and can make the
program raise (an unhashable list or dict name) or merge keys
differently (a boolean name colliding with an integer one) — and which
has a `query` field. -/
def entryWF (x : Json) : Bool :=
  match x with
  | .obj e =>
    (match jsonLookup e "name" with
     | some (.str _) => true
     | _ => false) && hasKey e "query"
  | _ => false

/-- A `schedule` value of the recognized schema: an object with a
`query` field. -/
def schedValWF (x : Json) : Bool :=
  match x with
  | .obj d => hasKey d "query"
  | _ => false

/-- A config document of the recognized shape: a JSON object whose
`scheduledQueries` member, when present, is a list of well-formed
entries, and whose `schedule` member, when present, is an object of
well-formed values. -/
def configWF (config : Json) : Bool :=
  match config with
  | .obj kvs =>
    (match jsonLookup kvs "scheduledQueries" with
     | none => true
     | some (.arr xs) => xs.all entryWF
     | some _ => false) &&
    (match jsonLookup kvs "schedule" with
     | none => true
     | some (.obj s) => s.all (fun nd => schedValWF nd.2)
     | some _ => false)
  | _ => false

/-- The `(name, query)` pair contributed by a well-formed
`scheduledQueries` entry. -/
def wfEntryPair (x : Json) : Json × Json :=
  (jsonGetD x "name", jsonGetD x "query")

/-- The `(name, query)` pairs of the `scheduledQueries` list, in order. -/
def sqPairs (kvs : List (String × Json)) : List (Json × Json) :=
  match jsonLookup kvs "scheduledQueries" with
  | some (.arr xs) => xs.map wfEntryPair
  | _ => []

/-- The `(name, query)` pairs of the `schedule` mapping, in order. -/
def schedPairs (kvs : List (String × Json)) : List (Json × Json) :=
  match jsonLookup kvs "schedule" with
  | some (.obj s) => s.map (fun nd => (Json.str nd.1, jsonGetD nd.2 "query"))
  | _ => []

/-- Sequential dict assignment of a list of pairs (all keys are
strings under the recognized shape, for which Python assignment is
plain replacement). -/
def applyPairs (qs : List (Json × Json)) (pairs : List (Json × Json)) :
    List (Json × Json) :=
  pairs.foldl (fun a p => dictSet a p.1 p.2) qs

/-- The claim's merged name-to-query map: `scheduledQueries` pairs
first, then `schedule` pairs, later assignments overwriting earlier
bindings of the same name. -/
def mergedQueries (kvs : List (String × Json)) : List (Json × Json) :=
  applyPairs (applyPairs [] (sqPairs kvs)) (schedPairs kvs)

/-- Lookup of a name in a query map. -/
def lookupQuery (m : List (Json × Json)) (k : Json) : Option Json :=
  dictGet m k

end Utils

namespace Gcf

/-! ## `tools/formatting/git-clang-format.py`

External process results (`git rev-parse`, `git cat-file -t`) are passed
as explicit oracle arguments.  `die(msg)` prints `error: msg` and exits
with status 2; `run(...)` on a failing command exits with status 2 after
relaying the tool's diagnostics.  Both fatal paths are modelled by
`Fatal`. -/

/-- A fatal termination of the tool: `die` (always exit status 2, with
the message passed to it) or a bare `sys.exit` from `run` after a
subprocess failed (also exit status 2, no `error:` message of its
own). -/
inductive Fatal where
  | died (msg : String)
  | runFailed
deriving DecidableEq, Repr

/-- Exit status of a fatal termination: both paths use 2. -/
def Fatal.exitCode : Fatal → Nat
  | .died _ => 2
  | .runFailed => 2

/-- Source `disambiguate_revision` (git-clang-format.py lines 219-229).
`revParseOk` is whether `git rev-parse <value>` succeeded (`run` exits
with status 2 otherwise), `objType` the output of
`git cat-file -t <value>` (`none` when it failed, i.e. the token names
no git object). -/
def disambiguate_revision (revParseOk : Bool) (objType : Option String)
    (value : String) : Except Fatal Bool :=
  if !revParseOk then .error .runFailed
  else
    match objType with
    | none => .ok false
    | some t =>
      if t = "commit" ∨ t = "tag" then .ok true
      else .error (.died ("`" ++ value ++ "` is a " ++ t ++
        ", but a commit or filename was expected"))

/-- Source `interpret_args` (git-clang-format.py lines 182-216).  `dash_dash`
is `argv[idx:]` when a literal `--` was found (so it starts with the
`--` itself, and `files = dash_dash[1:]`), else `[]`.  The git oracles
are functions of the queried token. -/
def interpret_args (args dash_dash : List String) (default_commit : String)
    (revParseOk : String → Bool) (objType : String → Option String) :
    Except Fatal (String × List String) :=
  if dash_dash ≠ [] then
    match args with
    | [] => checkCommit default_commit (dash_dash.drop 1) objType
    | [c] => checkCommit c (dash_dash.drop 1) objType
    | a :: b :: more => .error (.died ("at most one commit allowed; " ++
        toString (a :: b :: more).length ++ " given"))
  else
    match args with
    | [] => .ok (default_commit, [])
    | first :: rest =>
      match disambiguate_revision (revParseOk first) (objType first) first with
      | .error e => .error e
      | .ok true => .ok (first, rest)
      | .ok false => .ok (default_commit, first :: rest)
where
  /-- Lines 199-205: validate the commit in the `--` branch and pair it
  with the files taken from after the `--`. -/
  checkCommit (commit : String) (files : List String)
      (objType : String → Option String) : Except Fatal (String × List String) :=
    match objType commit with
    | none => .error (.died ("'" ++ commit ++ "' is not a commit"))
    | some t =>
      if t = "commit" ∨ t = "tag" then .ok (commit, files)
      else .error (.died ("'" ++ commit ++ "' is a " ++ t ++
        ", but a commit was expected"))

/-! ### `extract_lines` (git-clang-format.py lines 268-290) -/

/-- Match of `re.search(r'^\+\+\+\ [^/]+/(.*)', line)` followed by
`.group(1).rstrip('\r\n')`: the line starts with `+++ `, then at least
one non-slash character, then `/`; the capture is the rest of the line
(a `.` does not cross a newline), stripped of trailing CR/LF. -/
def matchFileHeader (line : String) : Option String :=
  match line.toList with
  | '+' :: '+' :: '+' :: ' ' :: rest =>
    let before := rest.takeWhile (fun c => c ≠ '/')
    match rest.dropWhile (fun c => c ≠ '/') with
    | '/' :: tail =>
      if before.isEmpty then none
      else
        some (String.mk
          ((tail.takeWhile (fun c => c ≠ '\n')).reverse.dropWhile
            (fun c => c = '\r' ∨ c = '\n') |>.reverse))
    | _ => none
  | _ => none

/-- Match of `re.search(r'^@@ -[0-9,]+ \+(\d+)(,(\d+))?', line)`: the
new-file start line and, when present, the count after the comma. -/
def matchHunk (line : String) : Option (Nat × Option Nat) :=
  match line.toList with
  | '@' :: '@' :: ' ' :: '-' :: rest =>
    let oldPart := rest.takeWhile (fun c => c.isDigit || c = ',')
    if oldPart.isEmpty then none
    else
      match rest.dropWhile (fun c => c.isDigit || c = ',') with
      | ' ' :: '+' :: r2 =>
        let d1 := r2.takeWhile Char.isDigit
        if d1.isEmpty then none
        else
          let start := natOfDigits d1
          match r2.dropWhile Char.isDigit with
          | ',' :: r4 =>
            let d2 := r4.takeWhile Char.isDigit
            if d2.isEmpty then some (start, none)
            else some (start, some (natOfDigits d2))
          | _ => some (start, none)
      | _ => none
  | _ => none

/-- The scanner state of `extract_lines`: the binding of the local
`filename` (unbound before the first file header) and the accumulated
dictionary (named `matches` in the source, a reserved word here), as
an association list in insertion order. -/
structure ExtractState where
  filename : Option String
  found : List (String × List (Nat × Nat))
deriving DecidableEq, Repr

/-- Python `matches.setdefault(filename, []).append(r)`: append a range to the
file's list, creating the entry if needed. -/
def setdefaultAppend (m : List (String × List (Nat × Nat))) (k : String)
    (v : Nat × Nat) : List (String × List (Nat × Nat)) :=
  if m.any (fun p => p.1 == k) then
    m.map (fun p => if p.1 = k then (p.1, p.2 ++ [v]) else p)
  else m ++ [(k, [v])]

/-- One iteration of the `for line in patch_file` loop (lines 278-289).
`none` models the `UnboundLocalError` raised when a range is recorded
while `filename` was never assigned. -/
def extractStep (st : ExtractState) (line : String) : Option ExtractState :=
  let fn := match matchFileHeader line with
    | some f => some f
    | none => st.filename
  match matchHunk line with
  | none => some { st with filename := fn }
  | some (start, cnt) =>
    let line_count := cnt.getD 1
    if line_count > 0 then
      match fn with
      | none => none
      | some f =>
        some { filename := fn, found := setdefaultAppend st.found f (start, line_count) }
    else some { st with filename := fn }

/-- Source `extract_lines` (lines 268-290) over the diff's lines.  `none`
models an uncaught `UnboundLocalError`. -/
def extract_lines (lines : List String) :
    Option (List (String × List (Nat × Nat))) :=
  (lines.foldlM extractStep { filename := none, found := [] }).map
    (fun st => st.found)

/-- A line whose hunk-header match would record a range: the count is
absent (one changed line) or explicitly positive. -/
def recordableHunk (line : String) : Bool :=
  match matchHunk line with
  | none => false
  | some (_, cnt) => cnt.getD 1 > 0

/-- Every range-recording hunk header is preceded by some `+++` file
header: once a file header has been seen, `filename` stays bound, so
lines after it are unconstrained. -/
def hunkHeadersCovered : List String → Bool
  | [] => true
  | l :: ls =>
    if (matchFileHeader l).isSome then true
    else !recordableHunk l && hunkHeadersCovered ls

/-! ### `filter_by_extension` (git-clang-format.py lines 293-302) -/

/-- Python `filename.rsplit('.', 1)`: `none` when the name contains no
dot (the one-element result), else the text after the last dot. -/
def rsplitExt (filename : String) : Option String :=
  let cs := filename.toList
  if cs.contains '.' then
    some (String.mk ((cs.reverse.takeWhile (fun c => c ≠ '.')).reverse))
  else none

/-- Source `filter_by_extension` (lines 293-302).  The dictionary is an
association list; deleting the keys whose extension is missing or not
allowed is filtering.  `allowed_extensions` must already be lower case
(the caller lower-cases the option; the docstring requires it). -/
def filter_by_extension (dictionary : List (String × List (Nat × Nat)))
    (allowed_extensions : List String) : List (String × List (Nat × Nat)) :=
  dictionary.filter (fun p =>
    match rsplitExt p.1 with
    | none => false
    | some ext => allowed_extensions.any (fun a => a == pyLower ext))

/-! ### `clang_format_to_blob` (git-clang-format.py lines 352-362):
the formatter command line -/

/-- The `clang_format_cmd` list built on lines 357-362: the binary, the
file, `-style=<style>` when `style` is truthy (not `None` and not the
empty string), and one `-lines=<start>:<end>` per range with
`end = start + count - 1`. -/
def clang_format_cmd (filename : String) (line_ranges : List (Nat × Nat))
    (binary : String) (style : Option String) : List String :=
  let cmd := [binary, filename]
  let cmd := cmd ++ (match style with
    | some s => if s ≠ "" then ["-style=" ++ s] else []
    | none => [])
  cmd ++ line_ranges.map (fun r =>
    "-lines=" ++ toString r.1 ++ ":" ++ toString (r.1 + r.2 - 1))

/-! ### `temporary_index_file` (git-clang-format.py lines 384-398) -/

/-- The process environment as an association list (unique keys in the
real `os.environ`; the operations below are consistent for any list). -/
abbrev Env := List (String × String)

/-- Python `os.environ.get k`. -/
def envGet (env : Env) (k : String) : Option String :=
  dictGet env k

/-- Python `os.environ[k] = v`. -/
def envSet (env : Env) (k v : String) : Env :=
  dictSet env k v

/-- Python `del os.environ[k]`. -/
def envDel (env : Env) (k : String) : Env :=
  env.filter (fun p => ¬ p.1 == k)

/-- State touched by the `temporary_index_file` scope: the process
environment and whether the temporary index file currently exists. -/
structure GitState where
  env : Env
  tempIndexFileExists : Bool
deriving DecidableEq, Repr

/-- Outcome of the guarded body: a normal return or an exception that
will propagate after the `finally` block runs. -/
inductive BodyOutcome where
  | normal
  | raised
deriving DecidableEq, Repr

/-- Source `temporary_index_file` (lines 384-398): create the temporary index
at `index_path`, save the previous `GIT_INDEX_FILE`, install the
override, run the body, and in the `finally` block restore the previous
value (or delete the variable when there was none) and remove the file.
The body's outcome — normal or raised — is returned unchanged, and the
`finally` cleanup is applied on both paths. -/
def temporary_index_file (s : GitState) (index_path : String)
    (body : BodyOutcome) : BodyOutcome × GitState :=
  let s := { s with tempIndexFileExists := true }
  let old_index_path := envGet s.env "GIT_INDEX_FILE"
  let s := { s with env := envSet s.env "GIT_INDEX_FILE" index_path }
  let envAfter := match old_index_path with
    | none => envDel s.env "GIT_INDEX_FILE"
    | some v => envSet s.env "GIT_INDEX_FILE" v
  (body, { env := envAfter, tempIndexFileExists := false })

/-- The claim's filtering predicate, stated in its own words: keep a
file exactly when its name has an extension (text after the last dot)
whose case-insensitive comparison finds it in the allow-list. -/
def claimKeepsFile (allowed : List String) (filename : String) : Bool :=
  match rsplitExt filename with
  | none => false
  | some ext => allowed.any (fun a => pyLower a == pyLower ext)

end Gcf

deriving instance DecidableEq for Except

/-! ## Helper lemmas -/

theorem dictGet_nil {κ α : Type} [DecidableEq κ] (k : κ) :
    dictGet ([] : List (κ × α)) k = none := rfl

theorem dictGet_cons {κ α : Type} [DecidableEq κ] (p : κ × α)
    (m : List (κ × α)) (k : κ) :
    dictGet (p :: m) k = if p.1 = k then some p.2 else dictGet m k := by
  by_cases h : p.1 = k <;> simp [dictGet, List.find?_cons, h]

theorem dictGet_append {κ α : Type} [DecidableEq κ] (m1 m2 : List (κ × α)) (k : κ) :
    dictGet (m1 ++ m2) k = (dictGet m1 k).or (dictGet m2 k) := by
  induction m1 with
  | nil => simp [dictGet_nil]
  | cons p m1 ih =>
      by_cases h : p.1 = k <;> simp [dictGet_cons, h, ih]

theorem dictGet_eq_none_of_any_false {κ α : Type} [DecidableEq κ]
    (m : List (κ × α)) (k : κ) (h : m.any (fun p => p.1 == k) = false) :
    dictGet m k = none := by
  induction m with
  | nil => rfl
  | cons p m ih =>
      simp only [List.any_cons, Bool.or_eq_false_iff] at h
      have h1 : ¬ p.1 = k := by simpa using h.1
      simp [dictGet_cons, h1, ih h.2]

theorem dictGet_map_set_self {κ α : Type} [DecidableEq κ]
    (m : List (κ × α)) (k : κ) (v : α)
    (h : m.any (fun p => p.1 == k) = true) :
    dictGet (m.map (fun p => if p.1 = k then (k, v) else p)) k = some v := by
  induction m with
  | nil => simp at h
  | cons p m ih =>
      by_cases hp : p.1 = k
      · simp [dictGet_cons, hp]
      · simp only [List.any_cons, Bool.or_eq_true] at h
        rcases h with h | h
        · exact absurd (by simpa using h) hp
        · simp [dictGet_cons, hp, ih h]

theorem dictGet_map_set_ne {κ α : Type} [DecidableEq κ]
    (m : List (κ × α)) (k : κ) (v : α) (k' : κ) (h : k' ≠ k) :
    dictGet (m.map (fun p => if p.1 = k then (k, v) else p)) k' = dictGet m k' := by
  induction m with
  | nil => rfl
  | cons p m ih =>
      simp only [List.map_cons]
      by_cases hp : p.1 = k
      · rw [if_pos hp, dictGet_cons, dictGet_cons]
        have h1 : ¬ ((k, v).1 = k') := Ne.symm h
        have h2 : ¬ (p.1 = k') := by rw [hp]; exact Ne.symm h
        rw [if_neg h1, if_neg h2]
        exact ih
      · rw [if_neg hp, dictGet_cons, dictGet_cons]
        by_cases hp' : p.1 = k'
        · rw [if_pos hp', if_pos hp']
        · rw [if_neg hp', if_neg hp']
          exact ih

theorem dictGet_dictSet_self {κ α : Type} [DecidableEq κ]
    (m : List (κ × α)) (k : κ) (v : α) :
    dictGet (dictSet m k v) k = some v := by
  unfold dictSet
  by_cases h : m.any (fun p => p.1 == k) = true
  · simp only [h, if_true]
    exact dictGet_map_set_self m k v h
  · have h' : m.any (fun p => p.1 == k) = false := Bool.eq_false_iff.mpr h
    simp only [h', Bool.false_eq_true, if_false]
    rw [dictGet_append, dictGet_eq_none_of_any_false m k h']
    simp [dictGet_cons]

theorem dictGet_dictSet_ne {κ α : Type} [DecidableEq κ]
    (m : List (κ × α)) (k : κ) (v : α) (k' : κ) (h : k' ≠ k) :
    dictGet (dictSet m k v) k' = dictGet m k' := by
  unfold dictSet
  by_cases hm : m.any (fun p => p.1 == k) = true
  · simp only [hm, if_true]
    exact dictGet_map_set_ne m k v k' h
  · have h' : m.any (fun p => p.1 == k) = false := Bool.eq_false_iff.mpr hm
    simp only [h', Bool.false_eq_true, if_false]
    rw [dictGet_append]
    have : dictGet [(k, v)] k' = none := by
      simp [dictGet_cons, Ne.symm h, dictGet_nil]
    simp [this]

theorem filter_dictSet_of_none {κ α : Type} [DecidableEq κ]
    (m : List (κ × α)) (k : κ) (v : α) (h : dictGet m k = none) :
    (dictSet m k v).filter (fun p => ¬ p.1 == k) = m := by
  have hall : ∀ p ∈ m, ¬ (p.1 == k) = true := by
    intro p hp hpk
    have hk : p.1 = k := by simpa using hpk
    have : (m.find? (fun q => q.1 == k)).isSome = true := by
      rw [List.find?_isSome]
      exact ⟨p, hp, by simpa using hk⟩
    rw [show m.find? (fun q => q.1 == k) = none by
      simpa [dictGet, Option.map_eq_none] using h] at this
    simp at this
  have hany : m.any (fun p => p.1 == k) = false := by
    rw [List.any_eq_false]
    exact hall
  simp only [dictSet, hany, Bool.false_eq_true, if_false]
  rw [List.filter_append]
  have h1 : m.filter (fun p => ¬ p.1 == k) = m :=
    List.filter_eq_self.mpr (by intro p hp; simpa using hall p hp)
  have h2 : [(k, v)].filter (fun p : κ × α => ¬ p.1 == k) = [] := by
    simp
  rw [h1, h2, List.append_nil]

theorem foldlM_option_append_noop {α β : Type} (step : β → α → Option β) (mid : α)
    (hmid : ∀ st, step st mid = some st) :
    ∀ (xs : List α) (st : β) (ys : List α),
      List.foldlM step st (xs ++ mid :: ys) = List.foldlM step st (xs ++ ys) := by
  intro xs
  induction xs with
  | nil =>
      intro st ys
      simp [List.foldlM_cons, hmid]
  | cons x xs ih =>
      intro st ys
      simp only [List.cons_append, List.foldlM_cons]
      cases step st x <;> simp [ih]

theorem extractStep_zero_count_noop (st : Gcf.ExtractState) :
    Gcf.extractStep st "@@ -5,2 +8,0 @@" = some st := by
  have h1 : Gcf.matchFileHeader "@@ -5,2 +8,0 @@" = none := by decide
  have h2 : Gcf.matchHunk "@@ -5,2 +8,0 @@" = some (8, some 0) := by decide
  simp [Gcf.extractStep, h1, h2]

theorem extractStep_eq_of_skip (st : Gcf.ExtractState) (line : String)
    (hfh : Gcf.matchFileHeader line = none)
    (hrec : Gcf.recordableHunk line = false) :
    Gcf.extractStep st line = some st := by
  unfold Gcf.recordableHunk at hrec
  unfold Gcf.extractStep
  rw [hfh]
  cases hmh : Gcf.matchHunk line with
  | none => rfl
  | some sc =>
      rw [hmh] at hrec
      cases sc with
      | mk start cnt =>
          have hrec2 : decide (cnt.getD 1 > 0) = false := hrec
          have hle : ¬ cnt.getD 1 > 0 := of_decide_eq_false hrec2
          simp [hle]

theorem extractStep_filename_some (st : Gcf.ExtractState) (line : String)
    (h : st.filename.isSome = true ∨ (Gcf.matchFileHeader line).isSome = true) :
    ∃ st', Gcf.extractStep st line = some st' ∧ st'.filename.isSome = true := by
  unfold Gcf.extractStep
  cases hfh : Gcf.matchFileHeader line with
  | some f =>
      cases hmh : Gcf.matchHunk line with
      | none => exact ⟨_, rfl, rfl⟩
      | some sc =>
          cases sc with
          | mk start cnt =>
              by_cases hc : cnt.getD 1 > 0
              · simp only [hc, if_true]
                exact ⟨_, rfl, rfl⟩
              · simp only [hc, if_false]
                exact ⟨_, rfl, rfl⟩
  | none =>
      have hst : st.filename.isSome = true := by
        rcases h with h | h
        · exact h
        · rw [hfh] at h
          simp at h
      obtain ⟨f, hf⟩ := Option.isSome_iff_exists.mp hst
      rw [hf]
      cases hmh : Gcf.matchHunk line with
      | none => exact ⟨_, rfl, by simp [hf]⟩
      | some sc =>
          cases sc with
          | mk start cnt =>
              by_cases hc : cnt.getD 1 > 0
              · simp only [hc, if_true]
                exact ⟨_, rfl, rfl⟩
              · simp only [hc, if_false]
                exact ⟨_, rfl, by simp [hf]⟩

theorem foldlM_extract_some :
    ∀ (lines : List String) (st : Gcf.ExtractState),
      (st.filename.isSome = true ∨ Gcf.hunkHeadersCovered lines = true) →
      (List.foldlM Gcf.extractStep st lines).isSome = true := by
  intro lines
  induction lines with
  | nil =>
      intro st _
      rfl
  | cons l ls ih =>
      intro st h
      by_cases hfh : (Gcf.matchFileHeader l).isSome = true
      · obtain ⟨st', hstep, hsome⟩ := extractStep_filename_some st l (Or.inr hfh)
        rw [List.foldlM_cons, hstep]
        exact ih st' (Or.inl hsome)
      · rcases h with h | h
        · obtain ⟨st', hstep, hsome⟩ := extractStep_filename_some st l (Or.inl h)
          rw [List.foldlM_cons, hstep]
          exact ih st' (Or.inl hsome)
        · unfold Gcf.hunkHeadersCovered at h
          rw [if_neg hfh] at h
          have h' : Gcf.recordableHunk l = false ∧
              Gcf.hunkHeadersCovered ls = true := by
            simpa using h
          have hrec := h'.1
          have hcov := h'.2
          have hnone : Gcf.matchFileHeader l = none := by
            cases hx : Gcf.matchFileHeader l with
            | none => rfl
            | some f => rw [hx] at hfh; simp at hfh
          rw [List.foldlM_cons, extractStep_eq_of_skip st l hnone hrec]
          exact ih st (Or.inr hcov)

theorem any_eq_of_lower (allowed : List String) (x : String)
    (h : ∀ a ∈ allowed, pyLower a = a) :
    allowed.any (fun a => a == x) = allowed.any (fun a => pyLower a == x) := by
  induction allowed with
  | nil => rfl
  | cons a rest ih =>
      have ha := h a (by simp)
      have hrest : ∀ b ∈ rest, pyLower b = b := fun b hb => h b (by simp [hb])
      simp only [List.any_cons, ha, ih hrest]

theorem find?_none_of_dictGet_none {κ α : Type} [DecidableEq κ]
    (m : List (κ × α)) (k : κ) (h : dictGet m k = none) :
    ∀ p ∈ m, ¬ p.1 = k := by
  intro p hp hpk
  have hfind : m.find? (fun q => q.1 == k) = none := by
    cases hf : m.find? (fun q => q.1 == k) with
    | none => rfl
    | some q =>
        rw [dictGet, hf] at h
        simp at h
  have := List.find?_eq_none.mp hfind p hp
  simp [hpk] at this

theorem hasKey_iff (kvs : List (String × Json)) (k : String) :
    Utils.hasKey kvs k = true ↔ (Utils.jsonLookup kvs k).isSome = true := by
  unfold Utils.hasKey Utils.jsonLookup
  constructor
  · intro h
    obtain ⟨p, hp, hpk⟩ := List.any_eq_true.mp h
    have hsome : (kvs.reverse.find? (fun p => p.1 == k)).isSome = true := by
      rw [List.find?_isSome]
      exact ⟨p, List.mem_reverse.mpr hp, hpk⟩
    obtain ⟨q, hq⟩ := Option.isSome_iff_exists.mp hsome
    rw [hq]
    rfl
  · intro h
    cases hf : kvs.reverse.find? (fun p => p.1 == k) with
    | none => rw [hf] at h; simp at h
    | some q =>
        have hqmem := List.mem_of_find?_eq_some hf
        have hqk := List.find?_some hf
        exact List.any_eq_true.mpr ⟨q, List.mem_reverse.mp hqmem, hqk⟩

theorem hasKey_false_lookup_none (kvs : List (String × Json)) (k : String)
    (h : Utils.hasKey kvs k = false) : Utils.jsonLookup kvs k = none := by
  cases hl : Utils.jsonLookup kvs k with
  | none => rfl
  | some v =>
      have : Utils.hasKey kvs k = true := (hasKey_iff kvs k).mpr (by rw [hl]; rfl)
      rw [h] at this
      exact absurd this (by simp)

theorem getItem_obj_of_lookup (e : List (String × Json)) (k : String) (v : Json)
    (h : Utils.jsonLookup e k = some v) :
    Utils.getItem (.obj e) k = .ok v := by
  simp [Utils.getItem, h]

theorem jsonGetD_obj (e : List (String × Json)) (k : String) (v : Json)
    (h : Utils.jsonLookup e k = some v) : Utils.jsonGetD (.obj e) k = v := by
  simp [Utils.jsonGetD, h]

theorem applyPairs_nil (qs : List (Json × Json)) :
    Utils.applyPairs qs [] = qs := rfl

theorem applyPairs_cons (qs : List (Json × Json)) (p : Json × Json)
    (ps : List (Json × Json)) :
    Utils.applyPairs qs (p :: ps) = Utils.applyPairs (dictSet qs p.1 p.2) ps := rfl

theorem beq_str_str (a b : String) : (Json.str a == Json.str b) = (a == b) := by
  by_cases h : a = b
  · simp [h]
  · simp [h, Json.str.injEq]

theorem pyKeyEq_str (x : Json) (n : String) :
    Utils.pyKeyEq x (.str n) = (x == Json.str n) := by
  cases x with
  | str s => exact (beq_str_str s n).symm
  | null => simp [Utils.pyKeyEq]
  | bool b => simp [Utils.pyKeyEq]
  | num m => simp [Utils.pyKeyEq]
  | arr ys => simp [Utils.pyKeyEq]
  | obj e => simp [Utils.pyKeyEq]

theorem pyUpdate_str_ok (qs : List (Json × Json)) (n : String) (v : Json) :
    Utils.pyUpdate qs (.str n) v = .ok (dictSet qs (.str n) v) := by
  unfold Utils.pyUpdate
  rw [show Utils.pyHashable (.str n) = true from rfl]
  simp only [if_true]
  have hany : (fun p : Json × Json => Utils.pyKeyEq p.1 (Json.str n)) =
      (fun p : Json × Json => p.1 == Json.str n) :=
    funext fun p => pyKeyEq_str p.1 n
  have hmap : (fun p : Json × Json =>
      if Utils.pyKeyEq p.1 (Json.str n) then (p.1, v) else p) =
      (fun p : Json × Json => if p.1 = Json.str n then (Json.str n, v) else p) := by
    funext p
    by_cases hp : p.1 = Json.str n
    · rw [if_pos hp, if_pos (by rw [pyKeyEq_str p.1 n, hp]; simp), hp]
    · rw [if_neg hp, if_neg (by rw [pyKeyEq_str p.1 n]; simpa using hp)]
  rw [hany, hmap]
  rfl

theorem foldlM_addScheduled (xs : List Json)
    (hall : ∀ x ∈ xs, Utils.entryWF x = true) :
    ∀ qs, xs.foldlM Utils.addScheduledQuery qs =
      .ok (Utils.applyPairs qs (xs.map Utils.wfEntryPair)) := by
  induction xs with
  | nil => intro qs; rfl
  | cons x xs ih =>
      intro qs
      have hx := hall x (by simp)
      cases x with
      | obj e =>
          have hx' : (match Utils.jsonLookup e "name" with
              | some (.str _) => true
              | _ => false) = true ∧ Utils.hasKey e "query" = true := by
            simpa [Utils.entryWF] using hx
          obtain ⟨nm, hn⟩ : ∃ nm, Utils.jsonLookup e "name" = some (.str nm) := by
            have h1 := hx'.1
            cases hl : Utils.jsonLookup e "name" with
            | none => rw [hl] at h1; simp at h1
            | some w =>
                rw [hl] at h1
                cases w with
                | str t => exact ⟨t, rfl⟩
                | null => simp at h1
                | bool b => simp at h1
                | num m => simp at h1
                | arr ys => simp at h1
                | obj d => simp at h1
          obtain ⟨q, hq⟩ := Option.isSome_iff_exists.mp ((hasKey_iff e "query").mp hx'.2)
          have hstep : Utils.addScheduledQuery qs (.obj e) =
              .ok (dictSet qs (.str nm) q) := by
            unfold Utils.addScheduledQuery
            rw [getItem_obj_of_lookup e "name" (.str nm) hn,
              getItem_obj_of_lookup e "query" q hq]
            exact pyUpdate_str_ok qs nm q
          have hpair : Utils.wfEntryPair (.obj e) = (.str nm, q) := by
            unfold Utils.wfEntryPair
            rw [jsonGetD_obj e "name" (.str nm) hn, jsonGetD_obj e "query" q hq]
          rw [List.foldlM_cons, hstep]
          show xs.foldlM Utils.addScheduledQuery (dictSet qs (.str nm) q) = _
          rw [ih (fun y hy => hall y (by simp [hy]))]
          rw [List.map_cons, applyPairs_cons, hpair]
      | null => simp [Utils.entryWF] at hx
      | bool b => simp [Utils.entryWF] at hx
      | num m => simp [Utils.entryWF] at hx
      | str t => simp [Utils.entryWF] at hx
      | arr ys => simp [Utils.entryWF] at hx

theorem foldlM_addSchedItem (items : List (String × Json))
    (hall : ∀ nd ∈ items, Utils.schedValWF nd.2 = true) :
    ∀ qs, items.foldlM Utils.addSchedItem qs =
      .ok (Utils.applyPairs qs (items.map (fun nd =>
        (Json.str nd.1, Utils.jsonGetD nd.2 "query")))) := by
  induction items with
  | nil => intro qs; rfl
  | cons nd items ih =>
      intro qs
      have hx := hall nd (by simp)
      cases hnd2 : nd.2 with
      | obj d =>
          have hx' : Utils.hasKey d "query" = true := by
            rw [hnd2] at hx
            simpa [Utils.schedValWF] using hx
          obtain ⟨q, hq⟩ := Option.isSome_iff_exists.mp ((hasKey_iff d "query").mp hx')
          have hstep : Utils.addSchedItem qs nd = .ok (dictSet qs (.str nd.1) q) := by
            unfold Utils.addSchedItem
            rw [hnd2, getItem_obj_of_lookup d "query" q hq]
            exact pyUpdate_str_ok qs nd.1 q
          have hpair : (Json.str nd.1, Utils.jsonGetD nd.2 "query") =
              (Json.str nd.1, q) := by
            rw [hnd2, jsonGetD_obj d "query" q hq]
          rw [List.foldlM_cons, hstep]
          show items.foldlM Utils.addSchedItem (dictSet qs (.str nd.1) q) = _
          rw [ih (fun y hy => hall y (by simp [hy]))]
          rw [List.map_cons, applyPairs_cons, hpair]
      | null => rw [hnd2] at hx; simp [Utils.schedValWF] at hx
      | bool b => rw [hnd2] at hx; simp [Utils.schedValWF] at hx
      | num m => rw [hnd2] at hx; simp [Utils.schedValWF] at hx
      | str t => rw [hnd2] at hx; simp [Utils.schedValWF] at hx
      | arr ys => rw [hnd2] at hx; simp [Utils.schedValWF] at hx

theorem configWF_parts (kvs : List (String × Json))
    (h : Utils.configWF (.obj kvs) = true) :
    (match Utils.jsonLookup kvs "scheduledQueries" with
     | none => true
     | some (.arr xs) => xs.all Utils.entryWF
     | some _ => false) = true ∧
    (match Utils.jsonLookup kvs "schedule" with
     | none => true
     | some (.obj s) => s.all (fun nd => Utils.schedValWF nd.2)
     | some _ => false) = true := by
  have h' := h
  unfold Utils.configWF at h'
  exact Bool.and_eq_true_iff.mp h'

theorem runScheduled_wf (kvs : List (String × Json))
    (hwf : Utils.configWF (.obj kvs) = true) (qs : List (Json × Json)) :
    Utils.runScheduled (.obj kvs) qs = .ok (Utils.applyPairs qs (Utils.sqPairs kvs)) := by
  have hparts := (configWF_parts kvs hwf).1
  unfold Utils.runScheduled
  have hin : Utils.pyIn (.obj kvs) "scheduledQueries" =
      .ok (Utils.hasKey kvs "scheduledQueries") := rfl
  rw [hin]
  cases hk : Utils.hasKey kvs "scheduledQueries" with
  | false =>
      have hnone := hasKey_false_lookup_none kvs "scheduledQueries" hk
      unfold Utils.sqPairs
      rw [hnone]
      rfl
  | true =>
      obtain ⟨v, hv⟩ := Option.isSome_iff_exists.mp ((hasKey_iff kvs "scheduledQueries").mp hk)
      rw [hv] at hparts
      cases v with
      | arr xs =>
          have hall : ∀ x ∈ xs, Utils.entryWF x = true := by
            intro x hx
            exact List.all_eq_true.mp hparts x hx
          rw [getItem_obj_of_lookup kvs "scheduledQueries" (.arr xs) hv]
          show xs.foldlM Utils.addScheduledQuery qs = _
          rw [foldlM_addScheduled xs hall qs]
          unfold Utils.sqPairs
          rw [hv]
      | null => simp at hparts
      | bool b => simp at hparts
      | num m => simp at hparts
      | str t => simp at hparts
      | obj e => simp at hparts

theorem runSchedule_wf (kvs : List (String × Json))
    (hwf : Utils.configWF (.obj kvs) = true) (qs : List (Json × Json)) :
    Utils.runSchedule (.obj kvs) qs = .ok (Utils.applyPairs qs (Utils.schedPairs kvs)) := by
  have hparts := (configWF_parts kvs hwf).2
  unfold Utils.runSchedule
  have hin : Utils.pyIn (.obj kvs) "schedule" =
      .ok (Utils.hasKey kvs "schedule") := rfl
  rw [hin]
  cases hk : Utils.hasKey kvs "schedule" with
  | false =>
      have hnone := hasKey_false_lookup_none kvs "schedule" hk
      unfold Utils.schedPairs
      rw [hnone]
      rfl
  | true =>
      obtain ⟨v, hv⟩ := Option.isSome_iff_exists.mp ((hasKey_iff kvs "schedule").mp hk)
      rw [hv] at hparts
      cases v with
      | obj sched =>
          have hall : ∀ nd ∈ sched, Utils.schedValWF nd.2 = true := by
            intro nd hnd
            exact List.all_eq_true.mp hparts nd hnd
          rw [getItem_obj_of_lookup kvs "schedule" (.obj sched) hv]
          show sched.foldlM Utils.addSchedItem qs = _
          rw [foldlM_addSchedItem sched hall qs]
          unfold Utils.schedPairs
          rw [hv]
      | null => simp at hparts
      | bool b => simp at hparts
      | num m => simp at hparts
      | str t => simp at hparts
      | arr ys => simp at hparts

theorem queries_from_config_wf (kvs : List (String × Json))
    (hwf : Utils.configWF (.obj kvs) = true) :
    Utils.queries_from_config (some (.obj kvs)) =
      if (Utils.mergedQueries kvs).length = 0 then .exited 0
      else .returned (Utils.mergedQueries kvs) := by
  show (match Utils.runScheduled (Json.obj kvs) [] with
      | Except.error e => Utils.ConfigOutcome.raised e
      | Except.ok qs1 =>
        match Utils.runSchedule (Json.obj kvs) qs1 with
        | Except.error e => Utils.ConfigOutcome.raised e
        | Except.ok queries =>
          if queries.length = 0 then Utils.ConfigOutcome.exited 0
          else Utils.ConfigOutcome.returned queries) = _
  rw [runScheduled_wf kvs hwf []]
  show (match Utils.runSchedule (Json.obj kvs) (Utils.applyPairs [] (Utils.sqPairs kvs)) with
      | Except.error e => Utils.ConfigOutcome.raised e
      | Except.ok queries =>
        if queries.length = 0 then Utils.ConfigOutcome.exited 0
        else Utils.ConfigOutcome.returned queries) = _
  rw [runSchedule_wf kvs hwf _]
  rfl

theorem lookupQuery_dictSet_self (qs : List (Json × Json)) (k v : Json) :
    Utils.lookupQuery (dictSet qs k v) k = some v :=
  dictGet_dictSet_self qs k v

theorem lookupQuery_dictSet_ne (qs : List (Json × Json)) (k v k' : Json)
    (h : k' ≠ k) :
    Utils.lookupQuery (dictSet qs k v) k' = Utils.lookupQuery qs k' :=
  dictGet_dictSet_ne qs k v k' h

theorem lookup_applyPairs_of_not_mem (pairs : List (Json × Json)) (k : Json)
    (h : ∀ p ∈ pairs, p.1 ≠ k) :
    ∀ qs, Utils.lookupQuery (Utils.applyPairs qs pairs) k = Utils.lookupQuery qs k := by
  induction pairs with
  | nil => intro qs; rfl
  | cons p ps ih =>
      intro qs
      rw [applyPairs_cons]
      rw [ih (fun y hy => h y (by simp [hy]))]
      exact lookupQuery_dictSet_ne qs p.1 p.2 k (Ne.symm (h p (by simp)))

theorem lookup_applyPairs_last (pairs : List (Json × Json)) (k v : Json)
    (h : dictGet pairs.reverse k = some v) :
    ∀ qs, Utils.lookupQuery (Utils.applyPairs qs pairs) k = some v := by
  induction pairs with
  | nil => simp [dictGet_nil] at h
  | cons p ps ih =>
      intro qs
      rw [List.reverse_cons, dictGet_append] at h
      rw [applyPairs_cons]
      cases hps : dictGet ps.reverse k with
      | some w =>
          rw [hps] at h
          simp only [Option.or_some, Option.some.injEq] at h
          subst h
          exact ih hps _
      | none =>
          rw [hps] at h
          simp only [Option.none_or] at h
          rw [dictGet_cons] at h
          have hp1 : p.1 = k := by
            by_cases hp : p.1 = k
            · exact hp
            · rw [if_neg hp] at h; simp [dictGet_nil] at h
          rw [if_pos hp1] at h
          have hp2 : p.2 = v := by simpa using h
          have hnomem : ∀ q ∈ ps, q.1 ≠ k := by
            intro q hq
            exact find?_none_of_dictGet_none ps.reverse k hps q (List.mem_reverse.mpr hq)
          rw [lookup_applyPairs_of_not_mem ps k hnomem]
          rw [hp1, hp2]
          exact lookupQuery_dictSet_self qs k v

theorem schedPairs_last_lookup (kvs sched dd : List (String × Json)) (n : String)
    (q : Json)
    (hsched : Utils.jsonLookup kvs "schedule" = some (.obj sched))
    (hn : Utils.jsonLookup sched n = some (.obj dd))
    (hq : Utils.jsonLookup dd "query" = some q) :
    dictGet (Utils.schedPairs kvs).reverse (Json.str n) = some q := by
  unfold Utils.schedPairs
  rw [hsched]
  set f : String × Json → Json × Json :=
    fun nd => (Json.str nd.1, Utils.jsonGetD nd.2 "query") with hf
  obtain ⟨w, hw, hw2⟩ : ∃ w, sched.reverse.find? (fun p => p.1 == n) = some w ∧
      w.2 = Json.obj dd := by
    unfold Utils.jsonLookup at hn
    cases hfind : sched.reverse.find? (fun p => p.1 == n) with
    | none => rw [hfind] at hn; simp at hn
    | some w =>
        rw [hfind] at hn
        exact ⟨w, rfl, by simpa using hn⟩
  have hw1 : w.1 = n := by
    have := List.find?_some hw
    simpa using this
  have hrev : (sched.map f).reverse = sched.reverse.map f := by
    rw [List.map_reverse]
  rw [hrev]
  have hpred : (fun p : Json × Json => p.1 == Json.str n) ∘ f =
      (fun nd : String × Json => nd.1 == n) := by
    funext nd
    show (Json.str nd.1 == Json.str n) = (nd.1 == n)
    exact beq_str_str nd.1 n
  unfold dictGet
  rw [List.find?_map, hpred, hw]
  show some ((f w).2) = some q
  rw [hf]
  show some (Utils.jsonGetD w.2 "query") = some q
  rw [hw2, jsonGetD_obj dd "query" q hq]

/-! ## Claim theorems -/

/-- C7: each of the five colorizing helpers returns its fixed ANSI
escape sequence around the stringified input followed by a reset:
`red` uses background 41 + foreground 1;30 with padding spaces,
`lightred` foreground 1;31 only without padding, `yellow` 43 + 1;30,
`green` 42 + 1;30, and `blue` 46 + 1;30. -/
theorem c7_color_helpers (msg : String) :
    Utils.red msg = "\x1b[41m\x1b[1;30m " ++ msg ++ " \x1b[0m" ∧
    Utils.lightred msg = "\x1b[1;31m" ++ msg ++ "\x1b[0m" ∧
    Utils.yellow msg = "\x1b[43m\x1b[1;30m " ++ msg ++ " \x1b[0m" ∧
    Utils.green msg = "\x1b[42m\x1b[1;30m " ++ msg ++ " \x1b[0m" ∧
    Utils.blue msg = "\x1b[46m\x1b[1;30m " ++ msg ++ " \x1b[0m" :=
  ⟨rfl, rfl, rfl, rfl, rfl⟩

/-- C1: evaluating `queries_from_tables` at the claim's own scenario —
a host whose normalized platform is `linux`, a walk over
`specs/foo.table` and `linux/bar.table` (plus a hidden file and a
`blacklist` file), empty restriction — produces only the `specs.foo`
entry.  The `linux.bar` entry required by the claim is missing, because
line 93 of utils.py compares the directory name against the list
`["specs", platform]` in which `platform` is the function object (the
call parentheses were forgotten), so no directory name ever matches the
host platform. -/
theorem c1_queries_from_tables_platform_bug :
    Utils.queries_from_tables "linux"
      [("root", []), ("root/specs", ["foo.table", ".hidden", "blacklist"]),
       ("root/linux", ["bar.table"])] "" =
      [("specs.foo", "SELECT * FROM foo;")] ∧
    "linux.bar" ∉ (Utils.queries_from_tables "linux"
      [("root", []), ("root/specs", ["foo.table", ".hidden", "blacklist"]),
       ("root/linux", ["bar.table"])] "").map Prod.fst ∧
    Utils.queries_from_tables "linux"
      [("root", []), ("root/specs", ["foo.table", ".hidden", "blacklist"]),
       ("root/linux", ["bar.table"])] "foo" =
      [("specs.foo", "SELECT * FROM foo;")] := by
  refine ⟨by decide, by decide, by decide⟩

/-- C6: `clang_format_to_blob` builds the formatter command line as the
binary, the file path, an optional `-style=<style>` exactly when a
(non-empty) style was given, and one `-lines=<start>:<end>` per
recorded range with `end = start + count - 1`. -/
theorem c6_clang_format_cmd (filename binary : String)
    (line_ranges : List (Nat × Nat)) :
    (Gcf.clang_format_cmd filename line_ranges binary none =
      [binary, filename] ++ line_ranges.map (fun r =>
        "-lines=" ++ toString r.1 ++ ":" ++ toString (r.1 + r.2 - 1))) ∧
    ∀ s : String, s ≠ "" →
      Gcf.clang_format_cmd filename line_ranges binary (some s) =
        [binary, filename] ++ ["-style=" ++ s] ++ line_ranges.map (fun r =>
          "-lines=" ++ toString r.1 ++ ":" ++ toString (r.1 + r.2 - 1)) := by
  constructor
  · simp [Gcf.clang_format_cmd]
  · intro s hs
    simp [Gcf.clang_format_cmd, hs]

/-- Witness for C6 at a concrete style and range list. -/
theorem c6_clang_format_cmd_witness :
    Gcf.clang_format_cmd "f.c" [(10, 1), (21, 3)] "clang-format" (some "file") =
      ["clang-format", "f.c"] ++ ["-style=" ++ "file"] ++
        [(10, 1), (21, 3)].map (fun r : Nat × Nat =>
          "-lines=" ++ toString r.1 ++ ":" ++ toString (r.1 + r.2 - 1)) :=
  (c6_clang_format_cmd "f.c" "clang-format" [(10, 1), (21, 3)]).2 "file" (by decide)

/-- C8: the `temporary_index_file` scope returns the body's outcome
unchanged (normal return or propagating exception), and on exit the
`GIT_INDEX_FILE` override is restored to its prior value (or removed if
previously unset), the temporary index file is deleted, and no other
environment variable is changed. -/
theorem c8_temporary_index_file_scope (s : Gcf.GitState) (index_path : String)
    (body : Gcf.BodyOutcome) :
    (Gcf.temporary_index_file s index_path body).1 = body ∧
    (Gcf.temporary_index_file s index_path body).2.tempIndexFileExists = false ∧
    ∀ k, Gcf.envGet (Gcf.temporary_index_file s index_path body).2.env k =
      Gcf.envGet s.env k := by
  refine ⟨rfl, rfl, ?_⟩
  intro k
  show Gcf.envGet
    (match Gcf.envGet s.env "GIT_INDEX_FILE" with
      | none => Gcf.envDel (Gcf.envSet s.env "GIT_INDEX_FILE" index_path) "GIT_INDEX_FILE"
      | some v => Gcf.envSet (Gcf.envSet s.env "GIT_INDEX_FILE" index_path) "GIT_INDEX_FILE" v)
    k = Gcf.envGet s.env k
  cases hold : Gcf.envGet s.env "GIT_INDEX_FILE" with
  | none =>
      show Gcf.envGet ((Gcf.envSet s.env "GIT_INDEX_FILE" index_path).filter
        (fun p => ¬ p.1 == "GIT_INDEX_FILE")) k = Gcf.envGet s.env k
      rw [show (Gcf.envSet s.env "GIT_INDEX_FILE" index_path).filter
          (fun p => ¬ p.1 == "GIT_INDEX_FILE") = s.env from
        filter_dictSet_of_none s.env "GIT_INDEX_FILE" index_path hold]
  | some v =>
      by_cases hk : k = "GIT_INDEX_FILE"
      · subst hk
        show dictGet (dictSet (dictSet s.env "GIT_INDEX_FILE" index_path)
          "GIT_INDEX_FILE" v) "GIT_INDEX_FILE" = _
        rw [dictGet_dictSet_self, hold]
      · show dictGet (dictSet (dictSet s.env "GIT_INDEX_FILE" index_path)
          "GIT_INDEX_FILE" v) k = _
        rw [dictGet_dictSet_ne _ _ _ _ hk, dictGet_dictSet_ne _ _ _ _ hk]
        rfl

/-- C2 counterexample: a token resolving to object kind "blob" is not
treated as a file — `disambiguate_revision` dies (exit 2) naming the
kind, exactly as for "tree", instead of returning false. -/
theorem c2_blob_counterexample :
    Gcf.disambiguate_revision true (some "blob") "b0b" =
      .error (.died "`b0b` is a blob, but a commit or filename was expected") ∧
    Gcf.disambiguate_revision true (some "blob") "b0b" ≠ .ok false ∧
    Gcf.interpret_args ["b0b", "f.c"] [] "HEAD" (fun _ => true) (fun _ => some "blob") =
      .error (.died "`b0b` is a blob, but a commit or filename was expected") := by
  refine ⟨by decide, by decide, by decide⟩

/-- C2 (amended): with no `--` given and `git rev-parse` succeeding on
the first positional token, a token resolving to *no* git object is
treated as a file (disambiguation returns false, the token joins the
file list); a token resolving to kind "commit" or "tag" is treated as
the commit; a token resolving to any other kind — "tree" or "blob"
alike — causes a fatal error (exit 2) whose message names the kind. -/
theorem c2_disambiguation_amended (v : String) (rest : List String) (d : String)
    (revOk : String → Bool) (objT : String → Option String)
    (hrev : revOk v = true) :
    (objT v = none →
      Gcf.disambiguate_revision (revOk v) (objT v) v = .ok false ∧
      Gcf.interpret_args (v :: rest) [] d revOk objT = .ok (d, v :: rest)) ∧
    (objT v = some "commit" →
      Gcf.disambiguate_revision (revOk v) (objT v) v = .ok true ∧
      Gcf.interpret_args (v :: rest) [] d revOk objT = .ok (v, rest)) ∧
    (objT v = some "tag" →
      Gcf.disambiguate_revision (revOk v) (objT v) v = .ok true ∧
      Gcf.interpret_args (v :: rest) [] d revOk objT = .ok (v, rest)) ∧
    (∀ t, objT v = some t → t ≠ "commit" → t ≠ "tag" →
      Gcf.disambiguate_revision (revOk v) (objT v) v =
        .error (.died ("`" ++ v ++ "` is a " ++ t ++
          ", but a commit or filename was expected")) ∧
      Gcf.interpret_args (v :: rest) [] d revOk objT =
        .error (.died ("`" ++ v ++ "` is a " ++ t ++
          ", but a commit or filename was expected"))) := by
  refine ⟨?_, ?_, ?_, ?_⟩
  · intro hobj
    have h1 : Gcf.disambiguate_revision (revOk v) (objT v) v = .ok false := by
      rw [hrev, hobj]; rfl
    refine ⟨h1, ?_⟩
    simp [Gcf.interpret_args, h1]
  · intro hobj
    have h1 : Gcf.disambiguate_revision (revOk v) (objT v) v = .ok true := by
      rw [hrev, hobj]; rfl
    refine ⟨h1, ?_⟩
    simp [Gcf.interpret_args, h1]
  · intro hobj
    have h1 : Gcf.disambiguate_revision (revOk v) (objT v) v = .ok true := by
      rw [hrev, hobj]; rfl
    refine ⟨h1, ?_⟩
    simp [Gcf.interpret_args, h1]
  · intro t hobj ht1 ht2
    have h1 : Gcf.disambiguate_revision (revOk v) (objT v) v =
        .error (.died ("`" ++ v ++ "` is a " ++ t ++
          ", but a commit or filename was expected")) := by
      rw [hrev, hobj]
      unfold Gcf.disambiguate_revision
      simp [ht1, ht2]
    refine ⟨h1, ?_⟩
    simp [Gcf.interpret_args, h1]

/-- Witness for C2 (amended) at a token of kind "tree". -/
theorem c2_disambiguation_amended_witness :
    Gcf.interpret_args ["t1", "f.c"] [] "HEAD" (fun _ => true) (fun _ => some "tree") =
      .error (.died ("`" ++ "t1" ++ "` is a " ++ "tree" ++
        ", but a commit or filename was expected")) :=
  ((c2_disambiguation_amended "t1" ["f.c"] "HEAD" (fun _ => true)
    (fun _ => some "tree") rfl).2.2.2 "tree" rfl (by decide) (by decide)).2

/-- C3: on the claim's zero-context diff with hunks `@@ -10 +10 @@` and
`@@ -20,0 +21,3 @@` the extraction yields `[(10,1), (21,3)]` for the
file named by the `+++` header; a hunk header with an explicit zero
count contributes nothing (the scan is unchanged by its presence); and
for any scanner state with a current file, a hunk-header line whose
count is absent (recorded as 1) or positive appends exactly one range
for that file. -/
theorem c3_extract_lines_ranges :
    (Gcf.extract_lines ["--- a/f.c", "+++ b/f.c", "@@ -10 +10 @@", "+x",
        "@@ -20,0 +21,3 @@", "+a", "+b", "+c"] =
      some [("f.c", [(10, 1), (21, 3)])]) ∧
    (∀ xs ys : List String,
      Gcf.extract_lines (xs ++ "@@ -5,2 +8,0 @@" :: ys) =
        Gcf.extract_lines (xs ++ ys)) ∧
    (∀ (st : Gcf.ExtractState) (line : String) (s : Nat) (c : Option Nat)
        (f : String),
      st.filename = some f → Gcf.matchFileHeader line = none →
      Gcf.matchHunk line = some (s, c) → c.getD 1 > 0 →
      Gcf.extractStep st line =
        some ⟨some f, Gcf.setdefaultAppend st.found f (s, c.getD 1)⟩) := by
  refine ⟨by decide, ?_, ?_⟩
  · intro xs ys
    unfold Gcf.extract_lines
    rw [foldlM_option_append_noop Gcf.extractStep _ extractStep_zero_count_noop]
  · intro st line s c f hf hh hm hc
    simp [Gcf.extractStep, hh, hm, hf, hc]

/-- Witness for C3's per-hunk recording part at a concrete state and
hunk header. -/
theorem c3_extract_lines_ranges_witness :
    Gcf.extractStep ⟨some "f.c", []⟩ "@@ -1 +2,3 @@" =
      some ⟨some "f.c", Gcf.setdefaultAppend [] "f.c" (2, (some 3 : Option Nat).getD 1)⟩ :=
  c3_extract_lines_ranges.2.2 ⟨some "f.c", []⟩ "@@ -1 +2,3 @@" 2 (some 3) "f.c"
    rfl (by decide) (by decide) (by decide)

/-- C10: `extract_lines` returns a map whenever every recordable hunk
header (absent or positive count) is preceded by a `+++` file header —
once a header is seen the file name stays bound — and fails
(`UnboundLocalError`, modelled as `none`) on an input whose first
recordable hunk header precedes any file header. -/
theorem c10_extract_lines_needs_header :
    (∀ lines : List String, Gcf.hunkHeadersCovered lines = true →
      (Gcf.extract_lines lines).isSome = true) ∧
    Gcf.extract_lines ["@@ -1 +1 @@"] = none := by
  constructor
  · intro lines h
    unfold Gcf.extract_lines
    have hs := foldlM_extract_some lines ⟨none, []⟩ (Or.inr h)
    cases hx : List.foldlM Gcf.extractStep ⟨none, []⟩ lines with
    | none => rw [hx] at hs; simp at hs
    | some st => rfl
  · decide

/-- Witness for C10 on a diff whose hunk header follows a file header. -/
theorem c10_extract_lines_needs_header_witness :
    (Gcf.extract_lines ["+++ a/f.c", "@@ -3 +4 @@"]).isSome = true :=
  c10_extract_lines_needs_header.1 ["+++ a/f.c", "@@ -3 +4 @@"] (by decide)

/-- C5: with a lower-case allow-list (as the docstring requires and the
caller guarantees), `filter_by_extension` removes exactly the entries
whose file name has no extension or whose extension (text after the
last dot, compared case-insensitively) is not in the allow-list, and
never adds or modifies entries (the result is a sublist of the
input). -/
theorem c5_filter_by_extension (d : List (String × List (Nat × Nat)))
    (allowed : List String) (h : ∀ a ∈ allowed, pyLower a = a) :
    Gcf.filter_by_extension d allowed =
      d.filter (fun p => Gcf.claimKeepsFile allowed p.1) ∧
    (Gcf.filter_by_extension d allowed).Sublist d := by
  have hpred : ∀ p : String × List (Nat × Nat),
      (match Gcf.rsplitExt p.1 with
        | none => false
        | some ext => allowed.any (fun a => a == pyLower ext)) =
      Gcf.claimKeepsFile allowed p.1 := by
    intro p
    unfold Gcf.claimKeepsFile
    cases Gcf.rsplitExt p.1 with
    | none => rfl
    | some ext => exact any_eq_of_lower allowed (pyLower ext) h
  constructor
  · unfold Gcf.filter_by_extension
    exact List.filter_congr (fun p _ => hpred p)
  · unfold Gcf.filter_by_extension
    exact List.filter_sublist d

/-- Witness for C5 at the claim's example. -/
theorem c5_filter_by_extension_witness :
    Gcf.filter_by_extension
      [("a.cpp", [(1, 1)]), ("a.py", [(2, 2)]), ("noext", [(3, 3)])] ["cpp", "h"] =
      [("a.cpp", [(1, 1)]), ("a.py", [(2, 2)]), ("noext", [(3, 3)])].filter
        (fun p => Gcf.claimKeepsFile ["cpp", "h"] p.1) :=
  (c5_filter_by_extension _ ["cpp", "h"] (by decide)).1

/-- C4 counterexample: a config file whose content is valid JSON `null`
parses successfully and contains neither key, yet `queries_from_config`
raises an uncaught `TypeError` from `"scheduledQueries" in config`
instead of printing a diagnostic and exiting with status 0. -/
theorem c4_scalar_config_counterexample :
    Utils.queries_from_config (some .null) = .raised .typeError ∧
    Utils.queries_from_config (some .null) ≠ .exited 0 := by
  refine ⟨by decide, by decide⟩

/-- C4 (amended): `queries_from_config` prints a diagnostic and exits
with status 1 when the file cannot be opened or parsed; for a document
of the recognized shape (a JSON object whose `scheduledQueries` member,
if present, is a list of objects each with a *string-valued* `name`
field and a `query` field — the spec's `{"name": str, "query": str}`
schema — and whose `schedule` member, if present, is an object of
objects with a `query` field), it exits with status 0 when the merged
map is empty (including when neither key is present) and otherwise
returns the merged name-to-query map without terminating.  Documents
outside that shape can instead raise an uncaught error: a bare `null`
raises `TypeError` at the key-membership test, and an in-schema-looking
entry whose `name` is a list raises `TypeError: unhashable type` at the
dict assignment (third conjunct). -/
theorem c4_queries_from_config_outcomes :
    Utils.queries_from_config none = .exited 1 ∧
    (∀ kvs : List (String × Json), Utils.configWF (.obj kvs) = true →
      Utils.queries_from_config (some (.obj kvs)) =
        if (Utils.mergedQueries kvs).length = 0 then .exited 0
        else .returned (Utils.mergedQueries kvs)) ∧
    Utils.queries_from_config (some (.obj [("scheduledQueries",
        .arr [.obj [("name", .arr [.str "x"]), ("query", .str "q")]])])) =
      .raised .typeError :=
  ⟨rfl, fun kvs h => queries_from_config_wf kvs h, by decide⟩

/-- Witness for C4 (amended) at a config with one entry under each
schema. -/
theorem c4_queries_from_config_outcomes_witness :
    Utils.queries_from_config (some (.obj [("scheduledQueries",
        .arr [.obj [("name", .str "a"), ("query", .str "q1")]]),
        ("schedule", .obj [("b", .obj [("query", .str "q2")])])])) =
      if (Utils.mergedQueries [("scheduledQueries",
          .arr [.obj [("name", .str "a"), ("query", .str "q1")]]),
          ("schedule", .obj [("b", .obj [("query", .str "q2")])])]).length = 0
      then .exited 0
      else .returned (Utils.mergedQueries [("scheduledQueries",
          .arr [.obj [("name", .str "a"), ("query", .str "q1")]]),
          ("schedule", .obj [("b", .obj [("query", .str "q2")])])]) :=
  c4_queries_from_config_outcomes.2.1 _ (by decide)

/-- C9: when the same name is both the `name` of a `scheduledQueries`
entry and a key of the `schedule` mapping, the returned map binds that
name to the `schedule` entry's query — the `schedule` mapping is
processed second and overwrites the `scheduledQueries` binding. -/
theorem c9_schedule_overrides_scheduledQueries
    (kvs sched dd : List (String × Json)) (n : String) (q : Json)
    (hwf : Utils.configWF (.obj kvs) = true)
    (hsched : Utils.jsonLookup kvs "schedule" = some (.obj sched))
    (hn : Utils.jsonLookup sched n = some (.obj dd))
    (hq : Utils.jsonLookup dd "query" = some q)
    (_hname : ∃ xs, Utils.jsonLookup kvs "scheduledQueries" = some (.arr xs) ∧
      ∃ e, Json.obj e ∈ xs ∧ Utils.jsonLookup e "name" = some (.str n)) :
    ∃ m, Utils.queries_from_config (some (.obj kvs)) = .returned m ∧
      Utils.lookupQuery m (.str n) = some q := by
  have hlast := schedPairs_last_lookup kvs sched dd n q hsched hn hq
  have hlook : Utils.lookupQuery (Utils.mergedQueries kvs) (.str n) = some q := by
    unfold Utils.mergedQueries
    exact lookup_applyPairs_last (Utils.schedPairs kvs) (.str n) q hlast _
  have hne : Utils.mergedQueries kvs ≠ [] := by
    intro h0
    rw [h0] at hlook
    simp [Utils.lookupQuery, dictGet_nil] at hlook
  refine ⟨Utils.mergedQueries kvs, ?_, hlook⟩
  rw [queries_from_config_wf kvs hwf]
  rw [if_neg (by simpa [List.length_eq_zero] using hne)]

/-- Witness for C9 at a config where the name "a" appears in both
schemas with different queries: the `schedule` query wins. -/
theorem c9_schedule_overrides_scheduledQueries_witness :
    ∃ m, Utils.queries_from_config (some (.obj [("scheduledQueries",
        .arr [.obj [("name", .str "a"), ("query", .str "q1")]]),
        ("schedule", .obj [("a", .obj [("query", .str "q2")])])])) =
      .returned m ∧
      Utils.lookupQuery m (.str "a") = some (.str "q2") :=
  c9_schedule_overrides_scheduledQueries
    [("scheduledQueries", .arr [.obj [("name", .str "a"), ("query", .str "q1")]]),
     ("schedule", .obj [("a", .obj [("query", .str "q2")])])]
    [("a", .obj [("query", .str "q2")])] [("query", .str "q2")] "a" (.str "q2")
    (by decide) (by decide) (by decide) (by decide)
    ⟨[.obj [("name", .str "a"), ("query", .str "q1")]], by decide,
      [("name", .str "a"), ("query", .str "q1")], by decide, by decide⟩

